import Mathlib

/-!
Verification of the l4postgres connection matcher.

The repository carries two variants of the matcher; this development embeds
the defensive implementation (the one exercised by the repository's test
suite): the `message` cursor with its sticky error flag, the frame reader
with its size bounds, and the startup-handshake classifier with its
parameter-list walk.

Bytes are modelled as natural numbers; the `uint32` offsets and lengths are
natural numbers as well, which is faithful because every arithmetic step in
the source is guarded so that no wraparound can occur on the guarded paths
(the guards themselves are translated literally).
-/

namespace L4Postgres

/-- Constant `sslRequestCode` from the source. -/
def sslRequestCode : Nat := 80877103

/-- Byte size of the message length field (`initMessageSizeLength`). -/
def initMessageSizeLength : Nat := 4

/-- Smallest possible valid message length (`minMessageLength`). -/
def minMessageLength : Nat := 8

/-- Smallest valid startup payload (`minStartupPayloadLength`). -/
def minStartupPayloadLength : Nat := 5

/-- Maximum accepted startup payload size (`maxStartupPayloadSize`). -/
def maxStartupPayloadSize : Nat := 16 * 1024

/-- Big-endian decoding of (the first four bytes of) a byte list, as
`binary.BigEndian.Uint32` does on a 4-byte slice. -/
def beUint32 (l : List Nat) : Nat :=
  l.getD 0 0 * 16777216 + l.getD 1 0 * 65536 + l.getD 2 0 * 256 + l.getD 3 0

/-- Big-endian encoding of a `u32` value into four bytes. -/
def be32 (n : Nat) : List Nat :=
  [n / 16777216 % 256, n / 65536 % 256, n / 256 % 256, n % 256]

/-- The `message` struct: a byte buffer with a read offset, the sticky error
flag (`err ≠ nil` in the source becomes a `Bool`), and the start offset of
the most recent string read. -/
structure Message where
  data : List Nat
  offset : Nat
  err : Bool
  lastReadStringStartOffset : Nat
deriving Repr, DecidableEq

/-- `newMessageFromBytes` from the source. -/
def newMessageFromBytes (b : List Nat) : Message :=
  { data := b, offset := 0, err := false, lastReadStringStartOffset := 0 }

/-- `message.ReadUint32`: refuses to act on an already-failed cursor, marks
the cursor failed when fewer than four bytes remain, and otherwise decodes
four big-endian bytes and advances the offset. -/
def ReadUint32 (b : Message) : Nat × Message :=
  if b.err then (0, b)
  else if b.data.length < b.offset + 4 then (0, { b with err := true })
  else (beUint32 ((b.data.drop b.offset).take 4), { b with offset := b.offset + 4 })

/-- The null-terminator scan loop inside `message.ReadString`:
`for ; end < maximum && b.data[end] != 0; end++ {}`. -/
def scanNull (data : List Nat) (i : Nat) : Nat :=
  if h : i < data.length then
    if data.getD i 0 = 0 then i else scanNull data (i + 1)
  else i
termination_by data.length - i
decreasing_by
  omega

/-- `message.ReadString`: refuses to act on a failed cursor, records the
start offset, returns the empty string when exactly at the end of the
buffer, fails past the end, and otherwise scans for a null terminator,
failing (after returning the partial slice and saturating the offset) when
none is found before the end of the buffer. -/
def ReadString (b : Message) : List Nat × Message :=
  if b.err then ([], b)
  else if b.data.length ≤ b.offset then
    if b.offset = b.data.length then
      ([], { b with lastReadStringStartOffset := b.offset, err := false })
    else
      ([], { b with lastReadStringStartOffset := b.offset, err := true })
  else
    if scanNull b.data b.offset = b.data.length then
      ((b.data.drop b.offset).take (b.data.length - b.offset),
        { b with lastReadStringStartOffset := b.offset, err := true,
                 offset := b.data.length })
    else
      ((b.data.drop b.offset).take (scanNull b.data b.offset - b.offset),
        { b with lastReadStringStartOffset := b.offset,
                 offset := scanNull b.data b.offset + 1 })

section ScanNullLemmas

theorem le_scanNull (data : List Nat) (i : Nat) : i ≤ scanNull data i := by
  rw [scanNull]
  split
  · split
    · exact Nat.le_refl i
    · exact Nat.le_trans (Nat.le_succ i) (le_scanNull data (i + 1))
  · exact Nat.le_refl i
termination_by data.length - i
decreasing_by
  omega

theorem scanNull_le (data : List Nat) (i : Nat) (h : i ≤ data.length) :
    scanNull data i ≤ data.length := by
  rw [scanNull]
  split
  · split
    · omega
    · exact scanNull_le data (i + 1) (by omega)
  · omega
termination_by data.length - i
decreasing_by
  omega

theorem scanNull_null (data : List Nat) (i : Nat)
    (h : scanNull data i < data.length) : data.getD (scanNull data i) 0 = 0 := by
  by_cases h1 : i < data.length
  · by_cases h2 : data.getD i 0 = 0
    · rw [scanNull, dif_pos h1, if_pos h2] at h ⊢
      exact h2
    · rw [scanNull, dif_pos h1, if_neg h2] at h ⊢
      exact scanNull_null data (i + 1) h
  · rw [scanNull, dif_neg h1] at h
    omega
termination_by data.length - i
decreasing_by
  omega

theorem scanNull_free (data : List Nat) (i j : Nat) (h1 : i ≤ j)
    (h2 : j < scanNull data i) : data.getD j 0 ≠ 0 := by
  rw [scanNull] at h2
  split at h2
  · split at h2
    · omega
    · next hz =>
      rcases Nat.eq_or_lt_of_le h1 with h | h
      · exact h ▸ hz
      · exact scanNull_free data (i + 1) j h h2
  · omega
termination_by data.length - i
decreasing_by
  omega

end ScanNullLemmas

section ReadStringLemmas

theorem ReadString_of_err {b : Message} (h : b.err = true) :
    ReadString b = ([], b) := by
  simp [ReadString, h]

theorem ReadString_at_end {b : Message} (h : b.err = false)
    (h2 : b.offset = b.data.length) :
    ReadString b = ([], { b with lastReadStringStartOffset := b.offset }) := by
  have : ({ b with lastReadStringStartOffset := b.offset, err := false } : Message)
      = { b with lastReadStringStartOffset := b.offset } := by
    cases b
    simp_all
  rw [ReadString, if_neg (by simp [h]), if_pos (Nat.le_of_eq h2.symm), if_pos h2, this]

theorem ReadString_past_end {b : Message} (h : b.err = false)
    (h2 : b.data.length < b.offset) :
    ReadString b = ([], { b with lastReadStringStartOffset := b.offset, err := true }) := by
  rw [ReadString, if_neg (by simp [h]), if_pos (Nat.le_of_lt h2), if_neg (by omega)]

theorem ReadString_noterm {b : Message} (h : b.err = false)
    (h2 : b.offset < b.data.length) (h3 : scanNull b.data b.offset = b.data.length) :
    ReadString b = ((b.data.drop b.offset).take (b.data.length - b.offset),
      { b with lastReadStringStartOffset := b.offset, err := true,
               offset := b.data.length }) := by
  rw [ReadString, if_neg (by simp [h]), if_neg (by omega), if_pos h3]

theorem ReadString_found {b : Message} (h : b.err = false)
    (h2 : b.offset < b.data.length) (h3 : scanNull b.data b.offset ≠ b.data.length) :
    ReadString b = ((b.data.drop b.offset).take (scanNull b.data b.offset - b.offset),
      { b with lastReadStringStartOffset := b.offset,
               offset := scanNull b.data b.offset + 1 }) := by
  rw [ReadString, if_neg (by simp [h]), if_neg (by omega), if_neg h3]

theorem ReadString_data (b : Message) : ((ReadString b).2).data = b.data := by
  cases hb : b.err
  · rcases Nat.lt_trichotomy b.offset b.data.length with h2 | h2 | h2
    · by_cases h3 : scanNull b.data b.offset = b.data.length
      · rw [ReadString_noterm hb h2 h3]
      · rw [ReadString_found hb h2 h3]
    · rw [ReadString_at_end hb h2]
    · rw [ReadString_past_end hb h2]
  · rw [ReadString_of_err hb]

theorem ReadString_offset_mono (b : Message) : b.offset ≤ ((ReadString b).2).offset := by
  cases hb : b.err
  · rcases Nat.lt_trichotomy b.offset b.data.length with h2 | h2 | h2
    · by_cases h3 : scanNull b.data b.offset = b.data.length
      · rw [ReadString_noterm hb h2 h3]
        exact Nat.le_of_lt h2
      · rw [ReadString_found hb h2 h3]
        exact Nat.le_trans (le_scanNull b.data b.offset) (Nat.le_succ _)
    · rw [ReadString_at_end hb h2]
    · rw [ReadString_past_end hb h2]
  · rw [ReadString_of_err hb]

theorem ReadString_sticky {b : Message} (h : b.err = true) :
    ((ReadString b).2).err = true := by
  rw [ReadString_of_err h]
  exact h

theorem ReadString_offset_lt {b : Message} (h : b.err = false)
    (h2 : b.offset < b.data.length) (h3 : ((ReadString b).2).err = false) :
    b.offset < ((ReadString b).2).offset := by
  by_cases h4 : scanNull b.data b.offset = b.data.length
  · rw [ReadString_noterm h h2 h4] at h3
    simp at h3
  · rw [ReadString_found h h2 h4]
    have := le_scanNull b.data b.offset
    simp only []
    omega

theorem ReadString_err_of_past {b : Message} (h : b.err = false)
    (h2 : b.data.length < b.offset) : ((ReadString b).2).err = true := by
  rw [ReadString_past_end h h2]

theorem ReadString_offset_le (b : Message) (h : b.offset ≤ b.data.length) :
    ((ReadString b).2).offset ≤ b.data.length := by
  cases hb : b.err
  · rcases Nat.lt_or_ge b.offset b.data.length with h2 | h2
    · by_cases h3 : scanNull b.data b.offset = b.data.length
      · rw [ReadString_noterm hb h2 h3]
      · rw [ReadString_found hb h2 h3]
        have := scanNull_le b.data b.offset (Nat.le_of_lt h2)
        simp only []
        omega
    · rw [ReadString_at_end hb (by omega)]
      exact h
  · rw [ReadString_of_err hb]
    exact h

end ReadStringLemmas

/-- One iteration of the parameter-list walk strictly decreases the number
of unread bytes: under the guards of the loop, two successful string reads
strictly advance the cursor within an unchanged buffer. -/
theorem loop_measure {b : Message} (h1 : ¬b.err = true)
    (h3 : ¬((ReadString b).2).err = true)
    (h6 : ¬((ReadString b).2).data.length ≤ ((ReadString b).2).offset)
    (h7 : ¬((ReadString (ReadString b).2).2).err = true) :
    ((ReadString (ReadString b).2).2).data.length
        - ((ReadString (ReadString b).2).2).offset
      < b.data.length - b.offset := by
  have hb' : b.err = false := by simpa using h1
  have h3' : ((ReadString b).2).err = false := by simpa using h3
  have h7' : ((ReadString (ReadString b).2).2).err = false := by simpa using h7
  have hd1 : ((ReadString b).2).data = b.data := ReadString_data b
  have hd2 : ((ReadString (ReadString b).2).2).data = ((ReadString b).2).data :=
    ReadString_data (ReadString b).2
  have hm1 : b.offset ≤ ((ReadString b).2).offset := ReadString_offset_mono b
  have hblt : b.offset < b.data.length := by
    rcases Nat.lt_or_ge b.offset b.data.length with hlt | hge
    · exact hlt
    · exfalso
      rcases Nat.eq_or_lt_of_le hge with heq | hpast
      · rw [ReadString_at_end hb' heq.symm] at h6
        simp at h6
        omega
      · exact absurd (ReadString_err_of_past hb' hpast) (by simp [h3'])
  have hl1 : ((ReadString b).2).offset < ((ReadString b).2).data.length := by omega
  have hlt2 : ((ReadString b).2).offset < ((ReadString (ReadString b).2).2).offset :=
    ReadString_offset_lt h3' hl1 h7'
  rw [hd2, hd1] at *
  omega

/-- The parameter-list walk of `MatchPostgres.Match` (the `for` loop): checks
the sticky error flag and the end-of-buffer condition, reads a key, detects
the single-null-byte terminator via `lastReadStringStartOffset`, requires the
terminator to land exactly at the end of the payload, and otherwise reads a
value and loops. -/
def paramLoop (b : Message) : Bool :=
  if hb : b.err then false
  else if hoff : b.offset = b.data.length then false
  else if h1 : ((ReadString b).2).err then false
  else if 0 < ((ReadString b).2).offset ∧
      ((ReadString b).2).offset - 1 = ((ReadString b).2).lastReadStringStartOffset ∧
      ((ReadString b).2).data.getD (((ReadString b).2).offset - 1) 1 = 0 then
    if ((ReadString b).2).offset = ((ReadString b).2).data.length then true else false
  else if ((ReadString b).2).err then false
  else if hend : ((ReadString b).2).data.length ≤ ((ReadString b).2).offset then false
  else if h2 : ((ReadString (ReadString b).2).2).err then false
  else paramLoop ((ReadString (ReadString b).2).2)
termination_by b.data.length - b.offset
decreasing_by
  exact loop_measure (by simpa using hb) (by simpa using h1)
    (by simpa using hend) (by simpa using h2)

/-- A byte stream: the bytes available before the stream ends, and whether
the stream then ends with a transport failure (rather than a clean EOF). -/
structure Stream where
  bytes : List Nat
  transportErr : Bool
deriving Repr, DecidableEq

/-- Result of `io.ReadFull`: either exactly the requested bytes together
with the remaining stream, a (possibly unexpected) end of file, or a
non-EOF transport error. -/
inductive ReadFullResult where
  | ok (taken : List Nat) (rest : Stream)
  | eof
  | ioErr
deriving Repr, DecidableEq

/-- `io.ReadFull` over the stream model: succeeds exactly when enough bytes
remain; otherwise reports `eof` for a clean end of stream (`io.EOF` or
`io.ErrUnexpectedEOF`) and `ioErr` for a transport failure. -/
def readFull (s : Stream) (n : Nat) : ReadFullResult :=
  if n ≤ s.bytes.length then .ok (s.bytes.take n) ⟨s.bytes.drop n, s.transportErr⟩
  else if s.transportErr then .ioErr else .eof

/-- The two wrapped error values `MatchPostgres.Match` can return: the
header-read wrap and the payload-read wrap of a non-EOF transport error. -/
inductive MatchError where
  | header
  | payload
deriving Repr, DecidableEq

/-- Steps 4 to 6 of `MatchPostgres.Match`: parse the payload with the cursor,
check for the exact SSLRequest, reject protocol major versions below 3 and
payloads too short for a startup message, then walk the parameter list. -/
def classify (payloadLen : Nat) (data : List Nat) : Bool :=
  have p := ReadUint32 (newMessageFromBytes data)
  if p.2.err then false
  else if p.1 = sslRequestCode ∧ payloadLen = 4 then true
  else if p.1 / 65536 < 3 then false
  else if payloadLen < minStartupPayloadLength then false
  else paramLoop p.2

/-- `MatchPostgres.Match`: read and validate the 4-byte length header, bound
and read the payload, and classify it. EOF during either read yields
`(false, none)`; a non-EOF transport failure is propagated. -/
def Match (s : Stream) : Bool × Option MatchError :=
  match readFull s initMessageSizeLength with
  | .ioErr => (false, some .header)
  | .eof => (false, none)
  | .ok head s1 =>
    if head.length < initMessageSizeLength then (false, none)
    else
      have messageLen := beUint32 head
      if messageLen < minMessageLength then (false, none)
      else
        have payloadLen := messageLen - initMessageSizeLength
        if maxStartupPayloadSize < payloadLen then (false, none)
        else if payloadLen = 0 then (false, none)
        else
          match readFull s1 payloadLen with
          | .ioErr => (false, some .payload)
          | .eof => (false, none)
          | .ok data _ =>
            if data.length < payloadLen then (false, none)
            else (classify payloadLen data, none)

/-- Modelled from the spec: the wire grammar of a startup parameter area —
zero or more (key, value) pairs, each a null-terminated byte string with a
nonempty null-free key and a null-free value, followed by one trailing null
byte that must be the last byte. Stated as a three-state scanner: mode 0
expects a pair or the list terminator, mode 1 is inside a key, mode 2 is
inside a value. -/
def paramsScan : Nat → List Nat → Bool
  | _, [] => false
  | mode, c :: rest =>
    if mode = 0 then
      if c = 0 then rest.isEmpty else paramsScan 1 rest
    else if mode = 1 then
      if c = 0 then paramsScan 2 rest else paramsScan 1 rest
    else
      if c = 0 then paramsScan 0 rest else paramsScan 2 rest

theorem paramsScan_key (k rest : List Nat) (hk : ∀ x ∈ k, x ≠ 0) :
    paramsScan 1 (k ++ 0 :: rest) = paramsScan 2 rest := by
  induction k with
  | nil => simp [paramsScan]
  | cons a k ih =>
    have ha : a ≠ 0 := hk a (by simp)
    simp only [List.cons_append, paramsScan, if_neg ha, if_pos rfl]
    simp only [Nat.one_ne_zero, if_neg, if_pos rfl, reduceIte]
    exact ih fun x hx => hk x (by simp [hx])

theorem paramsScan_value (v rest : List Nat) (hv : ∀ x ∈ v, x ≠ 0) :
    paramsScan 2 (v ++ 0 :: rest) = paramsScan 0 rest := by
  induction v with
  | nil => simp [paramsScan]
  | cons a v ih =>
    have ha : a ≠ 0 := hv a (by simp)
    simp only [List.cons_append, paramsScan, if_neg ha]
    norm_num
    exact ih fun x hx => hv x (by simp [hx])

theorem paramsScan_pair (k v rest : List Nat) (hne : k ≠ [])
    (hk : ∀ x ∈ k, x ≠ 0) (hv : ∀ x ∈ v, x ≠ 0) :
    paramsScan 0 (k ++ 0 :: (v ++ 0 :: rest)) = paramsScan 0 rest := by
  cases k with
  | nil => exact absurd rfl hne
  | cons a k =>
    have ha : a ≠ 0 := hk a (by simp)
    have hstep : paramsScan 0 ((a :: k) ++ 0 :: (v ++ 0 :: rest))
        = paramsScan 1 (k ++ 0 :: (v ++ 0 :: rest)) := by
      simp [paramsScan, ha]
    rw [hstep, paramsScan_key k (v ++ 0 :: rest) fun x hx => hk x (by simp [hx]),
      paramsScan_value v rest hv]

section FrameLemmas

theorem be32_length (n : Nat) : (be32 n).length = 4 := rfl

theorem beUint32_be32 {n : Nat} (h : n < 4294967296) : beUint32 (be32 n) = n := by
  simp only [beUint32, be32, List.getD_cons_zero, List.getD_cons_succ]
  omega

/-- Plumbing for a complete frame: a stream carrying a correct 4-byte length
header, the full payload, and arbitrary further bytes reaches the
classifier whenever the payload length is in bounds. -/
theorem Match_frame (payload t : List Nat) (e : Bool)
    (h4 : 4 ≤ payload.length) (h16 : payload.length ≤ 16384) :
    Match ⟨be32 (payload.length + 4) ++ (payload ++ t), e⟩
      = (classify payload.length payload, none) := by
  have hble : initMessageSizeLength
      ≤ (be32 (payload.length + 4) ++ (payload ++ t)).length := by
    simp [initMessageSizeLength, be32]
  have htake : (be32 (payload.length + 4) ++ (payload ++ t)).take 4
      = be32 (payload.length + 4) := List.take_left' rfl
  have hdrop : (be32 (payload.length + 4) ++ (payload ++ t)).drop 4
      = payload ++ t := List.drop_left' rfl
  have hbe : beUint32 (be32 (payload.length + 4)) = payload.length + 4 :=
    beUint32_be32 (by omega)
  have hple : payload.length ≤ (payload ++ t).length := by
    simp
  have htake2 : (payload ++ t).take payload.length = payload := List.take_left' rfl
  rw [Match, readFull, if_pos hble]
  simp only [htake, hdrop, be32_length, initMessageSizeLength, hbe]
  rw [if_neg (by omega), if_neg (by simp [minMessageLength]; omega)]
  have hps : payload.length + 4 - 4 = payload.length := by omega
  rw [hps]
  rw [if_neg (by simp [maxStartupPayloadSize]; omega), if_neg (by omega)]
  rw [readFull, if_pos hple]
  simp only [htake2]
  rw [if_neg (by omega)]

end FrameLemmas

theorem ReadUint32_ok {b : Message} (h : b.err = false)
    (h2 : b.offset + 4 ≤ b.data.length) :
    ReadUint32 b = (beUint32 ((b.data.drop b.offset).take 4),
      { b with offset := b.offset + 4 }) := by
  rw [ReadUint32, if_neg (by simp [h]), if_neg (by omega)]

theorem scanNull_at_null {data : List Nat} {i : Nat} (h : i < data.length)
    (h0 : data.getD i 0 = 0) : scanNull data i = i := by
  rw [scanNull, dif_pos h, if_pos h0]

/-- C1: for every stream that ends (EOF) before the 4-byte length header is
complete, or before the declared payload length is fully delivered, `Match`
returns `(false, none)`: a non-match with no error. -/
theorem match_truncated_eof_non_match (bs : List Nat)
    (h : bs.length < initMessageSizeLength
      + (beUint32 (bs.take 4) - initMessageSizeLength)) :
    Match ⟨bs, false⟩ = (false, none) := by
  rcases Nat.lt_or_ge bs.length 4 with h4 | h4
  · rw [Match, readFull,
      if_neg (show ¬initMessageSizeLength ≤ (⟨bs, false⟩ : Stream).bytes.length by
        simp [initMessageSizeLength]
        omega)]
    simp
  · have hhl : (bs.take 4).length = 4 := by
      simp [List.length_take]
      omega
    rw [Match, readFull,
      if_pos (show initMessageSizeLength ≤ (⟨bs, false⟩ : Stream).bytes.length from h4)]
    simp only [initMessageSizeLength, hhl]
    rw [if_neg (by omega)]
    by_cases hm8 : beUint32 (bs.take 4) < minMessageLength
    · rw [if_pos hm8]
    · rw [if_neg hm8]
      by_cases hbig : maxStartupPayloadSize < beUint32 (bs.take 4) - 4
      · rw [if_pos hbig]
      · rw [if_neg hbig]
        by_cases h0 : beUint32 (bs.take 4) - 4 = 0
        · rw [if_pos h0]
        · rw [if_neg h0, readFull,
            if_neg (show ¬beUint32 (bs.take 4) - 4
              ≤ (⟨bs.drop 4, false⟩ : Stream).bytes.length by
                simp [List.length_drop]
                simp [initMessageSizeLength] at h
                omega)]
          simp

/-- Witness for C1 at the concrete two-byte stream from the test suite. -/
theorem match_truncated_eof_non_match_witness :
    ([0, 0] : List Nat).length < initMessageSizeLength
        + (beUint32 (([0, 0] : List Nat).take 4) - initMessageSizeLength)
      ∧ Match ⟨[0, 0], false⟩ = (false, none) :=
  ⟨by decide, match_truncated_eof_non_match [0, 0] (by decide)⟩

/-- C5: every declared total length below 8 in the 4-byte header (including
0 through 7, where subtracting the header size would underflow) yields
`(false, none)`. -/
theorem match_short_length_non_match (s : Stream) (h4 : 4 ≤ s.bytes.length)
    (h8 : beUint32 (s.bytes.take 4) < minMessageLength) :
    Match s = (false, none) := by
  have hhl : (s.bytes.take 4).length = 4 := by
    simp [List.length_take]
    omega
  rw [Match, readFull, if_pos (show initMessageSizeLength ≤ s.bytes.length from h4)]
  simp only [initMessageSizeLength, hhl]
  rw [if_neg (by omega), if_pos h8]

/-- Witness for C5 at declared length 7, as in the test suite. -/
theorem match_short_length_non_match_witness :
    4 ≤ (⟨[0, 0, 0, 7], false⟩ : Stream).bytes.length
      ∧ beUint32 ((⟨[0, 0, 0, 7], false⟩ : Stream).bytes.take 4) < minMessageLength
      ∧ Match ⟨[0, 0, 0, 7], false⟩ = (false, none) :=
  ⟨by decide, by decide,
    match_short_length_non_match ⟨[0, 0, 0, 7], false⟩ (by decide) (by decide)⟩

/-- C6: every declared payload length above 16384 yields `(false, none)`,
and this is decided from the header alone: the conclusion holds for every
continuation of the stream after the 4 header bytes, so the payload body is
never read. -/
theorem match_oversized_declared_payload (hd t : List Nat) (e : Bool)
    (hlen : hd.length = 4)
    (hbig : maxStartupPayloadSize < beUint32 hd - initMessageSizeLength) :
    Match ⟨hd ++ t, e⟩ = (false, none) := by
  have h4 : initMessageSizeLength ≤ (hd ++ t).length := by
    simp [initMessageSizeLength]
    omega
  have htake : (hd ++ t).take 4 = hd := List.take_left' hlen
  rw [Match, readFull, if_pos h4]
  simp only [initMessageSizeLength, htake, hlen] at *
  rw [if_neg (by omega),
    if_neg (show ¬beUint32 hd < minMessageLength by
      simp [minMessageLength]
      simp [maxStartupPayloadSize] at hbig
      omega),
    if_pos hbig]

/-- Witness for C6: a header declaring a 16385-byte payload, followed by no
further bytes, as in the test suite. -/
theorem match_oversized_declared_payload_witness :
    ([0, 0, 64, 5] : List Nat).length = 4
      ∧ maxStartupPayloadSize < beUint32 [0, 0, 64, 5] - initMessageSizeLength
      ∧ Match ⟨[0, 0, 64, 5] ++ [], false⟩ = (false, none) :=
  ⟨by decide, by decide,
    match_oversized_declared_payload [0, 0, 64, 5] [] false rfl (by decide)⟩

theorem ReadUint32_payload (payload : List Nat) (h4 : 4 ≤ payload.length) :
    ReadUint32 (newMessageFromBytes payload) = (beUint32 (payload.take 4),
      { data := payload, offset := 4, err := false,
        lastReadStringStartOffset := 0 }) := by
  rw [show newMessageFromBytes payload
      = ⟨payload, 0, false, 0⟩ from rfl]
  rw [ReadUint32_ok rfl (by simpa using h4)]
  simp

/-- On a payload of five or more bytes whose version passes the major-version
gate, `classify` reduces to the parameter-list walk started after the
version word. -/
theorem classify_startup (payload : List Nat) (h5 : 5 ≤ payload.length)
    (hmaj : 3 ≤ beUint32 (payload.take 4) / 65536) :
    classify payload.length payload
      = paramLoop ⟨payload, 4, false, 0⟩ := by
  rw [classify, ReadUint32_payload payload (by omega)]
  rw [if_neg (by simp), if_neg (by simp; omega),
    if_neg (by simp; omega), if_neg (by simp [minStartupPayloadLength]; omega)]

/-- C2: a complete frame whose first payload word has a major version below
3 is silently rejected: `(false, none)`, not an error. -/
theorem match_legacy_version_non_match (payload t : List Nat) (e : Bool)
    (h4 : 4 ≤ payload.length) (h16 : payload.length ≤ 16384)
    (hmaj : beUint32 (payload.take 4) / 65536 < 3) :
    Match ⟨be32 (payload.length + 4) ++ (payload ++ t), e⟩ = (false, none) := by
  rw [Match_frame payload t e h4 h16]
  suffices hc : classify payload.length payload = false by rw [hc]
  rw [classify, ReadUint32_payload payload h4]
  have hlt : beUint32 (payload.take 4) < 196608 := by omega
  rw [if_neg (by simp),
    if_neg (by simp [sslRequestCode]; omega),
    if_pos hmaj]

/-- Witness for C2 at a version-2.0 startup frame, as in the test suite. -/
theorem match_legacy_version_non_match_witness :
    4 ≤ ([0, 2, 0, 0, 117, 0, 116, 0, 0] : List Nat).length
      ∧ beUint32 (([0, 2, 0, 0, 117, 0, 116, 0, 0] : List Nat).take 4) / 65536 < 3
      ∧ Match ⟨be32 (([0, 2, 0, 0, 117, 0, 116, 0, 0] : List Nat).length + 4)
          ++ ([0, 2, 0, 0, 117, 0, 116, 0, 0] ++ []), false⟩ = (false, none) :=
  ⟨by decide, by decide,
    match_legacy_version_non_match [0, 2, 0, 0, 117, 0, 116, 0, 0] [] false
      (by decide) (by decide) (by decide)⟩

/-- The parameter-list walk accepts the payload consisting of a version word
followed by the bare list terminator. -/
theorem paramLoop_empty_list (v0 v1 v2 v3 : Nat) :
    paramLoop ⟨[v0, v1, v2, v3, 0], 4, false, 0⟩ = true := by
  have hget : ([v0, v1, v2, v3, 0] : List Nat).getD 4 0 = 0 := by
    simp [List.getD_cons_succ, List.getD_cons_zero]
  have hscan : scanNull [v0, v1, v2, v3, 0] 4 = 4 :=
    scanNull_at_null (by simp) hget
  have hrs := ReadString_found (b := ⟨[v0, v1, v2, v3, 0], 4, false, 0⟩)
    rfl (by simp) (by rw [hscan]; simp)
  rw [hscan] at hrs
  rw [paramLoop, hrs]
  simp [List.getD_cons_succ, List.getD_cons_zero]

/-- A complete frame holding a five-byte payload — version word with major
version at least 3, then the bare terminator — matches, for any trailing
stream content. -/
theorem match_startup_empty_params_aux (v0 v1 v2 v3 : Nat) (t : List Nat) (e : Bool)
    (hmaj : 3 ≤ beUint32 [v0, v1, v2, v3] / 65536) :
    Match ⟨0 :: 0 :: 0 :: 9 :: v0 :: v1 :: v2 :: v3 :: 0 :: t, e⟩ = (true, none) := by
  have h := Match_frame [v0, v1, v2, v3, 0] t e (by simp) (by simp)
  have htake : ([v0, v1, v2, v3, 0] : List Nat).take 4 = [v0, v1, v2, v3] := by
    simp
  rw [classify_startup [v0, v1, v2, v3, 0] (by simp) (by rw [htake]; exact hmaj),
    paramLoop_empty_list] at h
  have hb : be32 (([v0, v1, v2, v3, 0] : List Nat).length + 4) = [0, 0, 0, 9] := by
    norm_num [be32]
  rw [hb] at h
  simpa using h

/-- C4: a well-formed startup handshake with major version at least 3 and an
empty parameter list — header declaring total length 9, a version word, one
null byte — matches: `(true, none)`. -/
theorem match_empty_parameter_list (v0 v1 v2 v3 : Nat) (e : Bool)
    (hmaj : 3 ≤ beUint32 [v0, v1, v2, v3] / 65536) :
    Match ⟨[0, 0, 0, 9, v0, v1, v2, v3, 0], e⟩ = (true, none) :=
  match_startup_empty_params_aux v0 v1 v2 v3 [] e hmaj

/-- Witness for C4 at protocol version 3.0 (bytes 0 3 0 0). -/
theorem match_empty_parameter_list_witness :
    3 ≤ beUint32 [0, 3, 0, 0] / 65536
      ∧ Match ⟨[0, 0, 0, 9, 0, 3, 0, 0, 0], false⟩ = (true, none) :=
  ⟨by decide, match_empty_parameter_list 0 3 0 0 false (by decide)⟩

/-- An exact SSLRequest frame — length 8, then the 4-byte request code —
matches, for any trailing stream content. -/
theorem match_ssl_request_aux (t : List Nat) (e : Bool) :
    Match ⟨0 :: 0 :: 0 :: 8 :: 4 :: 210 :: 22 :: 47 :: t, e⟩ = (true, none) := by
  have h := Match_frame [4, 210, 22, 47] t e (by simp) (by simp)
  have hcl : classify (([4, 210, 22, 47] : List Nat).length) [4, 210, 22, 47]
      = true := by decide
  rw [hcl] at h
  have hb : be32 (([4, 210, 22, 47] : List Nat).length + 4) = [0, 0, 0, 8] := by
    norm_num [be32]
  rw [hb] at h
  simpa using h

/-- Counterexample to C3: the nine-byte stream below declares length 9 and
carries a five-byte payload whose first word is exactly the SSLRequest code
80877103 followed by one null byte; its payload length is 5, not 4, yet
`Match` accepts it — the code falls through to the startup-handshake
interpretation (major version 80877103 >> 16 = 1233 ≥ 3, empty parameter
list) instead of rejecting the frame. -/
theorem match_ssl_code_wrong_length_matches :
    beUint32 (([4, 210, 22, 47, 0] : List Nat).take 4) = sslRequestCode
      ∧ ([4, 210, 22, 47, 0] : List Nat).length ≠ 4
      ∧ Match ⟨[0, 0, 0, 9, 4, 210, 22, 47, 0], false⟩ = (true, none) :=
  ⟨by decide, by decide, by
    have h := match_startup_empty_params_aux 4 210 22 47 [] false (by decide)
    simpa using h⟩

/-- C3 amended: the TLS-probe branch itself fires only when the first
payload word is 80877103 and the payload is exactly 4 bytes (first
conjunct); but a payload carrying the code with a different length is not
rejected outright — it is reinterpreted as a startup handshake whose major
version is 1233, so in particular the five-byte payload consisting of the
code and a null terminator still matches (second conjunct). -/
theorem match_ssl_probe_behaviour (t : List Nat) (e : Bool) :
    Match ⟨0 :: 0 :: 0 :: 8 :: 4 :: 210 :: 22 :: 47 :: t, e⟩ = (true, none)
      ∧ Match ⟨0 :: 0 :: 0 :: 9 :: 4 :: 210 :: 22 :: 47 :: 0 :: t, e⟩ = (true, none) :=
  ⟨match_ssl_request_aux t e,
    match_startup_empty_params_aux 4 210 22 47 t e (by decide)⟩

theorem ReadUint32_of_err {b : Message} (h : b.err = true) :
    ReadUint32 b = (0, b) := by
  rw [ReadUint32, if_pos h]

theorem ReadUint32_offset_mono (b : Message) :
    b.offset ≤ ((ReadUint32 b).2).offset := by
  cases hb : b.err
  · rcases Nat.lt_or_ge b.data.length (b.offset + 4) with h2 | h2
    · rw [ReadUint32, if_neg (by simp [hb]), if_pos h2]
    · rw [ReadUint32_ok hb h2]
      simp
  · rw [ReadUint32_of_err hb]

/-- A cursor operation: one call of `ReadUint32` or `ReadString`. -/
inductive ReadOp where
  | u32
  | str
deriving Repr, DecidableEq

/-- The state transition of one cursor operation. -/
def applyOp (b : Message) : ReadOp → Message
  | .u32 => (ReadUint32 b).2
  | .str => (ReadString b).2

/-- The state after running a sequence of cursor operations. -/
def applyOps (b : Message) (ops : List ReadOp) : Message :=
  ops.foldl applyOp b

theorem applyOp_offset_mono (b : Message) (op : ReadOp) :
    b.offset ≤ (applyOp b op).offset := by
  cases op
  · exact ReadUint32_offset_mono b
  · exact ReadString_offset_mono b

/-- C8: over any buffer and any sequence of `ReadUint32`/`ReadString` calls,
the cursor offset is monotonically non-decreasing; and from a failed cursor
every sequence of reads leaves the state unchanged (so the flag never
resets), each individual read returning the zero value of its type. -/
theorem cursor_sticky_invariant (b : Message) (ops : List ReadOp) :
    b.offset ≤ (applyOps b ops).offset
      ∧ (b.err = true → applyOps b ops = b
          ∧ ReadUint32 b = (0, b) ∧ ReadString b = ([], b)) := by
  induction ops generalizing b with
  | nil =>
    refine ⟨Nat.le_refl _, fun h => ⟨rfl, ReadUint32_of_err h, ReadString_of_err h⟩⟩
  | cons op ops ih =>
    have hstep : applyOps b (op :: ops) = applyOps (applyOp b op) ops := rfl
    constructor
    · rw [hstep]
      exact Nat.le_trans (applyOp_offset_mono b op) (ih (applyOp b op)).1
    · intro h
      have hop : applyOp b op = b := by
        cases op
        · show (ReadUint32 b).2 = b
          rw [ReadUint32_of_err h]
        · show (ReadString b).2 = b
          rw [ReadString_of_err h]
      refine ⟨?_, ReadUint32_of_err h, ReadString_of_err h⟩
      rw [hstep, hop]
      exact ((ih b).2 h).1

/-- Witness for C8: a concrete failed cursor is left unchanged by a read
sequence, and both primitives return zero values on it. -/
theorem cursor_sticky_invariant_witness :
    applyOps ⟨[5, 6], 1, true, 0⟩ [ReadOp.u32, ReadOp.str] = ⟨[5, 6], 1, true, 0⟩
      ∧ ReadUint32 ⟨[5, 6], 1, true, 0⟩ = (0, ⟨[5, 6], 1, true, 0⟩)
      ∧ ReadString ⟨[5, 6], 1, true, 0⟩ = ([], ⟨[5, 6], 1, true, 0⟩) :=
  (cursor_sticky_invariant ⟨[5, 6], 1, true, 0⟩ [ReadOp.u32, ReadOp.str]).2 rfl

/-- The parameter-list walk written with explicit fuel: `none` means the
fuel ran out before the loop returned. -/
def paramLoopFuel : Nat → Message → Option Bool
  | 0, _ => none
  | fuel + 1, b =>
    if b.err then some false
    else if b.offset = b.data.length then some false
    else if ((ReadString b).2).err then some false
    else if 0 < ((ReadString b).2).offset ∧
        ((ReadString b).2).offset - 1 = ((ReadString b).2).lastReadStringStartOffset ∧
        ((ReadString b).2).data.getD (((ReadString b).2).offset - 1) 1 = 0 then
      (if ((ReadString b).2).offset = ((ReadString b).2).data.length then some true
        else some false)
    else if ((ReadString b).2).err then some false
    else if ((ReadString b).2).data.length ≤ ((ReadString b).2).offset then some false
    else if ((ReadString (ReadString b).2).2).err then some false
    else paramLoopFuel fuel ((ReadString (ReadString b).2).2)

/-- Any fuel exceeding the number of unread bytes lets the fuelled walk
finish with the walk's result. -/
theorem paramLoopFuel_adequate : ∀ (f : Nat) (b : Message),
    b.data.length - b.offset < f → paramLoopFuel f b = some (paramLoop b) := by
  intro f
  induction f with
  | zero =>
    intro b h
    omega
  | succ f ih =>
    intro b h
    rw [paramLoop]
    show (if b.err then some false else _) = _
    by_cases h1 : b.err = true
    · rw [if_pos h1, dif_pos h1]
    · rw [if_neg h1, dif_neg h1]
      by_cases h2 : b.offset = b.data.length
      · rw [if_pos h2, dif_pos h2]
      · rw [if_neg h2, dif_neg h2]
        by_cases h3 : ((ReadString b).2).err = true
        · rw [if_pos h3, dif_pos h3]
        · rw [if_neg h3, dif_neg h3]
          by_cases h4 : 0 < ((ReadString b).2).offset ∧
              ((ReadString b).2).offset - 1
                = ((ReadString b).2).lastReadStringStartOffset ∧
              ((ReadString b).2).data.getD (((ReadString b).2).offset - 1) 1 = 0
          · rw [if_pos h4, if_pos h4]
            split <;> rfl
          · rw [if_neg h4, if_neg h4, if_neg h3, if_neg h3]
            by_cases h6 : ((ReadString b).2).data.length ≤ ((ReadString b).2).offset
            · rw [if_pos h6, dif_pos h6]
            · rw [if_neg h6, dif_neg h6]
              by_cases h7 : ((ReadString (ReadString b).2).2).err = true
              · rw [if_pos h7, dif_pos h7]
              · rw [if_neg h7, dif_neg h7]
                exact ih _ (by
                  have := loop_measure h1 h3 h6 h7
                  omega)

/-- C10: the parameter-list walk terminates on every finite payload buffer —
a fuel bound of one more than the number of unread bytes always suffices,
so the walk (and with it the classification) is a total function of the
payload bytes. -/
theorem paramLoop_terminates (b : Message) (f : Nat)
    (h : b.data.length - b.offset < f) :
    paramLoopFuel f b = some (paramLoop b) :=
  paramLoopFuel_adequate f b h

/-- Witness for C10 on a concrete one-byte buffer. -/
theorem paramLoop_terminates_witness :
    (⟨[0], 0, false, 0⟩ : Message).data.length
        - (⟨[0], 0, false, 0⟩ : Message).offset < 2
      ∧ paramLoopFuel 2 ⟨[0], 0, false, 0⟩ = some (paramLoop ⟨[0], 0, false, 0⟩) :=
  ⟨by decide, paramLoop_terminates ⟨[0], 0, false, 0⟩ 2 (by decide)⟩

theorem drop_split_at_null (data : List Nat) (i j : Nat) (hij : i ≤ j)
    (hj : j < data.length) :
    data.drop i = (data.drop i).take (j - i) ++ data.getD j 0 :: data.drop (j + 1) := by
  have h1 : data.drop i
      = (data.drop i).take (j - i) ++ (data.drop i).drop (j - i) :=
    (List.take_append_drop _ _).symm
  have h2 : (data.drop i).drop (j - i) = data.drop j := by
    rw [List.drop_drop]
    congr 1
    omega
  have h3 : data.drop j = data[j] :: data.drop (j + 1) := List.drop_eq_getElem_cons hj
  have h4 : data.getD j 0 = data[j] := List.getD_eq_getElem data 0 hj
  rw [h4]
  rw [h2, h3] at h1
  exact h1

theorem slice_free (data : List Nat) (i j : Nat)
    (hfree : ∀ m, i ≤ m → m < j → data.getD m 0 ≠ 0) :
    ∀ x ∈ (data.drop i).take (j - i), x ≠ 0 := by
  intro x hx
  obtain ⟨k, hk, hget⟩ := List.mem_iff_getElem.mp hx
  have hk' : k < j - i ∧ k < data.length - i := by
    simpa [List.length_take, List.length_drop, Nat.lt_min] using hk
  have hkd : k < (data.drop i).length := by
    simp [List.length_drop]
    omega
  rw [List.getElem_take, List.getElem_drop] at hget
  have hgd : data.getD (i + k) 0 = x := by
    rw [List.getD_eq_getElem data 0 (by omega)]
    exact hget
  have := hfree (i + k) (by omega) (by omega)
  rw [hgd] at this
  exact this

/-- Soundness of the parameter-list walk against the wire grammar: whenever
the walk accepts from a live cursor, the unread bytes form a well-formed
parameter area. -/
theorem paramLoop_sound : ∀ (n : Nat) (b : Message),
    b.data.length - b.offset < n → b.err = false → paramLoop b = true →
    paramsScan 0 (b.data.drop b.offset) = true := by
  intro n
  induction n with
  | zero =>
    intro b h
    omega
  | succ n ih =>
    intro b h hb htrue
    rw [paramLoop, dif_neg (by simp [hb])] at htrue
    by_cases hoff : b.offset = b.data.length
    · rw [dif_pos hoff] at htrue
      exact absurd htrue (by simp)
    rw [dif_neg hoff] at htrue
    by_cases h3 : ((ReadString b).2).err = true
    · rw [dif_pos h3] at htrue
      exact absurd htrue (by simp)
    rw [dif_neg h3] at htrue
    have hlt : b.offset < b.data.length := by
      rcases Nat.lt_or_ge b.offset b.data.length with hlt | hge
      · exact hlt
      · exact absurd (ReadString_err_of_past hb (by omega)) (by simp [h3])
    by_cases hsc : scanNull b.data b.offset = b.data.length
    · exact absurd (by rw [ReadString_noterm hb hlt hsc]) h3
    have hstple : scanNull b.data b.offset ≤ b.data.length :=
      scanNull_le b.data b.offset (by omega)
    have hstp : scanNull b.data b.offset < b.data.length := by omega
    have hstpge : b.offset ≤ scanNull b.data b.offset := le_scanNull b.data b.offset
    have hnull : b.data.getD (scanNull b.data b.offset) 0 = 0 :=
      scanNull_null b.data b.offset hstp
    have hrs := ReadString_found hb hlt hsc
    rw [hrs] at htrue
    simp only [] at htrue
    by_cases hterm : scanNull b.data b.offset = b.offset
    · rw [if_pos (by
        refine ⟨by omega, by simp; omega, ?_⟩
        simp only [Nat.add_sub_cancel]
        rw [List.getD_eq_getElem b.data 1 hstp,
          ← List.getD_eq_getElem b.data 0 hstp]
        exact hnull)] at htrue
      have hend : scanNull b.data b.offset + 1 = b.data.length := by
        by_contra hne
        rw [if_neg (by simpa using hne)] at htrue
        exact absurd htrue (by simp)
      rw [hterm] at hend hnull
      have hdrop : b.data.drop b.offset = [0] := by
        rw [List.drop_eq_getElem_cons (by omega : b.offset < b.data.length)]
        rw [← List.getD_eq_getElem b.data 0 (by omega), hnull, hend, List.drop_length]
      rw [hdrop]
      rfl
    · rw [if_neg (by
        rintro ⟨-, heq, -⟩
        simp only [Nat.add_sub_cancel] at heq
        exact hterm heq)] at htrue
      rw [if_neg (by simp [hb] : ¬b.err = true)] at htrue
      have hstpgt : b.offset < scanNull b.data b.offset := by omega
      by_cases hend : b.data.length ≤ scanNull b.data b.offset + 1
      · rw [dif_pos hend] at htrue
        exact absurd htrue (by simp)
      rw [dif_neg hend] at htrue
      generalize hb1 : (⟨b.data, scanNull b.data b.offset + 1, b.err, b.offset⟩ : Message) = b1 at htrue
      have hb1err : b1.err = false := by rw [← hb1]; exact hb
      have hb1data : b1.data = b.data := by rw [← hb1]
      have hb1off : b1.offset = scanNull b.data b.offset + 1 := by rw [← hb1]
      have hb1lt : b1.offset < b1.data.length := by rw [hb1data, hb1off]; omega
      by_cases hsc2 : scanNull b1.data b1.offset = b1.data.length
      · rw [dif_pos (by rw [ReadString_noterm hb1err hb1lt hsc2])] at htrue
        exact absurd htrue (by simp)
      have hrs2 := ReadString_found hb1err hb1lt hsc2
      rw [dif_neg (by rw [hrs2]; simpa using hb1err)] at htrue
      rw [hrs2] at htrue
      simp only [] at htrue
      have hstp2le : scanNull b1.data b1.offset ≤ b1.data.length :=
        scanNull_le b1.data b1.offset (by omega)
      have hstp2lt : scanNull b1.data b1.offset < b1.data.length := by omega
      have hstp2ge : b1.offset ≤ scanNull b1.data b1.offset :=
        le_scanNull b1.data b1.offset
      have hnull2 : b1.data.getD (scanNull b1.data b1.offset) 0 = 0 :=
        scanNull_null b1.data b1.offset hstp2lt
      have hrec := ih (⟨b1.data, scanNull b1.data b1.offset + 1, b1.err, b1.offset⟩ : Message)
        (by
          have hge := hstp2ge
          have hlt2 := hstp2lt
          rw [hb1data, hb1off] at hge hlt2
          simp only []
          rw [hb1data, hb1off]
          omega)
        (by simp only []; exact hb1err) htrue
      simp only [] at hrec
      rw [hb1data, hb1off] at hrec hsc2 hstp2le hstp2lt hstp2ge hnull2
      have hkey : b.data.drop b.offset
          = (b.data.drop b.offset).take (scanNull b.data b.offset - b.offset)
            ++ 0 :: b.data.drop (scanNull b.data b.offset + 1) := by
        have := drop_split_at_null b.data b.offset (scanNull b.data b.offset)
          (by omega) hstp
        rw [hnull] at this
        exact this
      have hvalue : b.data.drop (scanNull b.data b.offset + 1)
          = (b.data.drop (scanNull b.data b.offset + 1)).take
              (scanNull b.data (scanNull b.data b.offset + 1)
                - (scanNull b.data b.offset + 1))
            ++ 0 :: b.data.drop (scanNull b.data (scanNull b.data b.offset + 1) + 1) := by
        have := drop_split_at_null b.data (scanNull b.data b.offset + 1)
          (scanNull b.data (scanNull b.data b.offset + 1)) (by omega) (by omega)
        rw [hnull2] at this
        exact this
      rw [hkey, hvalue]
      rw [paramsScan_pair _ _ _ ?hne ?hk ?hv]
      · exact hrec
      case hne =>
        have hlen : ((b.data.drop b.offset).take
            (scanNull b.data b.offset - b.offset)).length
            = min (scanNull b.data b.offset - b.offset) (b.data.length - b.offset) := by
          simp [List.length_take, List.length_drop]
        refine List.ne_nil_of_length_pos ?_
        rw [hlen]
        omega
      case hk =>
        exact slice_free b.data b.offset (scanNull b.data b.offset)
          fun m hm1 hm2 => scanNull_free b.data b.offset m hm1 hm2
      case hv =>
        exact slice_free b.data (scanNull b.data b.offset + 1)
          (scanNull b.data (scanNull b.data b.offset + 1))
          fun m hm1 hm2 => scanNull_free b.data (scanNull b.data b.offset + 1) m hm1 hm2

/-- C7: a complete frame whose parameter area (the payload after the
version word) is not a well-formed parameter list — a key or value missing
its null terminator, or bytes after the empty-string terminator — is
rejected: `(false, none)`. -/
theorem match_malformed_params_non_match (payload t : List Nat) (e : Bool)
    (h5 : 5 ≤ payload.length) (h16 : payload.length ≤ 16384)
    (hbad : paramsScan 0 (payload.drop 4) = false) :
    Match ⟨be32 (payload.length + 4) ++ (payload ++ t), e⟩ = (false, none) := by
  rw [Match_frame payload t e (by omega) h16]
  suffices hc : classify payload.length payload = false by rw [hc]
  by_cases hmaj : 3 ≤ beUint32 (payload.take 4) / 65536
  · rw [classify_startup payload h5 hmaj]
    by_cases hpl : paramLoop ⟨payload, 4, false, 0⟩ = true
    · exfalso
      have hsound := paramLoop_sound (payload.length + 1)
        ⟨payload, 4, false, 0⟩ (by simp; omega) rfl hpl
      simp only [] at hsound
      rw [hsound] at hbad
      exact absurd hbad (by simp)
    · simpa using hpl
  · rw [classify, ReadUint32_payload payload (by omega)]
    rw [if_neg (by simp),
      if_neg (by rintro ⟨-, h44⟩; omega),
      if_pos (by omega)]

/-- Witness for C7 at the frame from the test suite whose value string lacks
its null terminator. -/
theorem match_malformed_params_non_match_witness :
    5 ≤ ([0, 3, 0, 0, 65, 0, 66] : List Nat).length
      ∧ paramsScan 0 (([0, 3, 0, 0, 65, 0, 66] : List Nat).drop 4) = false
      ∧ Match ⟨be32 (([0, 3, 0, 0, 65, 0, 66] : List Nat).length + 4)
          ++ ([0, 3, 0, 0, 65, 0, 66] ++ []), false⟩ = (false, none) :=
  ⟨by decide, by decide,
    match_malformed_params_non_match [0, 3, 0, 0, 65, 0, 66] [] false
      (by decide) (by decide) (by decide)⟩

/-- A checked Go slice `data[i:j]`: `none` models the runtime panic raised
when the bounds are invalid. -/
def sliceC (data : List Nat) (i j : Nat) : Option (List Nat) :=
  if i ≤ j ∧ j ≤ data.length then some ((data.drop i).take (j - i)) else none

/-- Checked `binary.BigEndian.Uint32`: panics (`none`) on a buffer shorter
than four bytes. -/
def beUint32C (l : List Nat) : Option Nat :=
  if 4 ≤ l.length then some (beUint32 l) else none

/-- `message.ReadUint32` with every buffer access checked: any access that
Go would panic on yields `none`. -/
def ReadUint32C (b : Message) : Option (Nat × Message) :=
  if b.err then some (0, b)
  else if b.data.length < b.offset + 4 then some (0, { b with err := true })
  else
    match sliceC b.data b.offset (b.offset + 4) with
    | none => none
    | some s =>
      match beUint32C s with
      | none => none
      | some v => some (v, { b with offset := b.offset + 4 })

/-- The terminator scan with its element access checked. -/
def scanNullC (data : List Nat) (i : Nat) : Option Nat :=
  if h : i < data.length then
    match data[i]? with
    | none => none
    | some c => if c = 0 then some i else scanNullC data (i + 1)
  else some i
termination_by data.length - i
decreasing_by
  omega

/-- `message.ReadString` with every buffer access checked. -/
def ReadStringC (b : Message) : Option (List Nat × Message) :=
  if b.err then some ([], b)
  else if b.data.length ≤ b.offset then
    if b.offset = b.data.length then
      some ([], { b with lastReadStringStartOffset := b.offset, err := false })
    else
      some ([], { b with lastReadStringStartOffset := b.offset, err := true })
  else
    match scanNullC b.data b.offset with
    | none => none
    | some stp =>
      if stp = b.data.length then
        match sliceC b.data b.offset b.data.length with
        | none => none
        | some r =>
          some (r, { b with lastReadStringStartOffset := b.offset, err := true, offset := b.data.length })
      else
        match sliceC b.data b.offset stp with
        | none => none
        | some r =>
          some (r, { b with lastReadStringStartOffset := b.offset, offset := stp + 1 })

theorem scanNullC_eq (data : List Nat) (i : Nat) :
    scanNullC data i = some (scanNull data i) := by
  by_cases h : i < data.length
  · have hg : data[i]? = some data[i] := List.getElem?_eq_getElem h
    rw [scanNullC, dif_pos h, hg]
    show (if data[i] = 0 then some i else scanNullC data (i + 1))
      = some (scanNull data i)
    rw [scanNull, dif_pos h, List.getD_eq_getElem data 0 h]
    by_cases hz : data[i] = 0
    · rw [if_pos hz, if_pos hz]
    · rw [if_neg hz, if_neg hz]
      exact scanNullC_eq data (i + 1)
  · rw [scanNullC, dif_neg h, scanNull, dif_neg h]
termination_by data.length - i
decreasing_by
  omega

theorem ReadUint32C_eq (b : Message) : ReadUint32C b = some (ReadUint32 b) := by
  cases hb : b.err
  · by_cases h2 : b.data.length < b.offset + 4
    · rw [ReadUint32C, if_neg (by simp [hb]), if_pos h2,
        ReadUint32, if_neg (by simp [hb]), if_pos h2]
    · have hslice : sliceC b.data b.offset (b.offset + 4)
          = some ((b.data.drop b.offset).take 4) := by
        have h44 : b.offset + 4 - b.offset = 4 := by omega
        rw [sliceC, if_pos ⟨by omega, by omega⟩, h44]
      have hlen : ((b.data.drop b.offset).take 4).length = 4 := by
        simp [List.length_take, List.length_drop]
        omega
      rw [ReadUint32C, if_neg (by simp [hb]), if_neg h2, hslice]
      simp only []
      rw [beUint32C, if_pos (by omega)]
      simp only []
      rw [ReadUint32, if_neg (by simp [hb]), if_neg h2]
  · rw [ReadUint32C, if_pos hb, ReadUint32_of_err hb]

theorem ReadStringC_eq (b : Message) : ReadStringC b = some (ReadString b) := by
  cases hb : b.err
  · rcases Nat.lt_trichotomy b.offset b.data.length with h2 | h2 | h2
    · have hle : scanNull b.data b.offset ≤ b.data.length :=
        scanNull_le b.data b.offset (by omega)
      have hge : b.offset ≤ scanNull b.data b.offset := le_scanNull b.data b.offset
      rw [ReadStringC, if_neg (by simp [hb]), if_neg (by omega), scanNullC_eq]
      simp only []
      by_cases hsc : scanNull b.data b.offset = b.data.length
      · rw [if_pos hsc, sliceC, if_pos ⟨by omega, by omega⟩]
        simp only []
        rw [ReadString_noterm hb h2 hsc]
      · rw [if_neg hsc, sliceC, if_pos ⟨hge, hle⟩]
        simp only []
        rw [ReadString_found hb h2 hsc]
    · rw [ReadStringC, if_neg (by simp [hb]), if_pos (by omega), if_pos h2,
        ReadString_at_end hb h2]
      have : ({ b with lastReadStringStartOffset := b.offset, err := false } : Message)
          = { b with lastReadStringStartOffset := b.offset } := by
        cases b
        simp_all
      rw [this]
    · rw [ReadStringC, if_neg (by simp [hb]), if_pos (by omega), if_neg (by omega),
        ReadString_past_end hb h2]
  · rw [ReadStringC, if_pos hb, ReadString_of_err hb]

/-- The parameter-list walk with every buffer access checked, including the
short-circuit evaluation of the terminator test: the element access
`b.data[b.offset-1]` happens only after the first two conjuncts hold, and
yields `none` (panic) when out of bounds. -/
def paramLoopC (b : Message) : Option Bool :=
  if hb : b.err then some false
  else if hoff : b.offset = b.data.length then some false
  else
    match h1 : ReadStringC b with
    | none => none
    | some p1 =>
      if he1 : p1.2.err then some false
      else
        match (if 0 < p1.2.offset ∧ p1.2.offset - 1 = p1.2.lastReadStringStartOffset
            then (p1.2.data[p1.2.offset - 1]?).map (fun c => decide (c = 0))
            else some false) with
        | none => none
        | some tf =>
          if tf then
            (if p1.2.offset = p1.2.data.length then some true else some false)
          else if p1.2.err then some false
          else if hend : p1.2.data.length ≤ p1.2.offset then some false
          else
            match h2 : ReadStringC p1.2 with
            | none => none
            | some p2 =>
              if he2 : p2.2.err then some false
              else paramLoopC p2.2
termination_by b.data.length - b.offset
decreasing_by
  have e1 : p1 = ReadString b := by
    have he := ReadStringC_eq b
    rw [h1] at he
    exact Option.some.inj he
  have e2 : p2 = ReadString p1.2 := by
    have he := ReadStringC_eq p1.2
    rw [h2] at he
    exact Option.some.inj he
  rw [e2, e1]
  rw [e1] at he1 hend
  exact loop_measure (by simpa using hb) (by simpa using he1)
    (by simpa using hend) (by rw [e2, e1] at he2; simpa using he2)

theorem paramLoopC_eq_aux : ∀ (n : Nat) (b : Message),
    b.data.length - b.offset < n → paramLoopC b = some (paramLoop b) := by
  intro n
  induction n with
  | zero =>
    intro b h
    omega
  | succ n ih =>
    intro b h
    rw [paramLoopC, paramLoop]
    by_cases h1 : b.err = true
    · rw [dif_pos h1, dif_pos h1]
    rw [dif_neg h1, dif_neg h1]
    by_cases h2 : b.offset = b.data.length
    · rw [dif_pos h2, dif_pos h2]
    rw [dif_neg h2, dif_neg h2]
    have hb : b.err = false := by simpa using h1
    split
    · next heq =>
      rw [ReadStringC_eq] at heq
      exact absurd heq (by simp)
    · next p1 heq =>
      have hp1 : p1 = ReadString b := by
        rw [ReadStringC_eq] at heq
        exact (Option.some.inj heq).symm
      subst hp1
      by_cases he1 : ((ReadString b).2).err = true
      · rw [dif_pos he1, dif_pos he1]
      rw [dif_neg he1, dif_neg he1]
      by_cases hc : 0 < ((ReadString b).2).offset ∧
          ((ReadString b).2).offset - 1 = ((ReadString b).2).lastReadStringStartOffset
      · have hblt : b.offset < b.data.length := by
          rcases Nat.lt_or_ge b.offset b.data.length with hlt | hge
          · exact hlt
          · exact absurd (ReadString_err_of_past hb (by omega)) (by simp [he1])
        have hsc : scanNull b.data b.offset ≠ b.data.length := by
          intro hx
          exact he1 (by rw [ReadString_noterm hb hblt hx])
        have hstp : scanNull b.data b.offset < b.data.length := by
          have := scanNull_le b.data b.offset (by omega)
          omega
        have hrs := ReadString_found hb hblt hsc
        have hnull : b.data[scanNull b.data b.offset] = 0 := by
          rw [← List.getD_eq_getElem b.data 0 hstp]
          exact scanNull_null b.data b.offset hstp
        have h3rd : b.data.getD (scanNull b.data b.offset) 1 = 0 := by
          rw [List.getD_eq_getElem b.data 1 hstp]
          exact hnull
        rw [hrs] at hc ⊢
        simp only [] at hc ⊢
        have hidx : scanNull b.data b.offset + 1 - 1 = scanNull b.data b.offset := by
          omega
        rw [hidx] at hc ⊢
        rw [if_pos hc]
        rw [List.getElem?_eq_getElem hstp]
        rw [show (some (b.data[scanNull b.data b.offset])).map
            (fun c => decide (c = 0))
          = some (decide (b.data[scanNull b.data b.offset] = 0)) from rfl]
        simp only []
        have hdec : decide (b.data[scanNull b.data b.offset] = 0) = true := by
          rw [hnull]
          rfl
        rw [hdec]
        rw [if_pos rfl]
        by_cases hfin : scanNull b.data b.offset + 1 = b.data.length
        · rw [if_pos hfin, if_pos ⟨hc.1, hc.2, h3rd⟩, if_pos hfin]
        · rw [if_neg hfin, if_pos ⟨hc.1, hc.2, h3rd⟩, if_neg hfin]
      · rw [if_neg hc]
        simp only []
        rw [if_neg Bool.false_ne_true]
        rw [if_neg (by simp [he1] : ¬((ReadString b).2).err = true)]
        rw [if_neg (by
          rintro ⟨ha, hb2, -⟩
          exact hc ⟨ha, hb2⟩)]
        rw [if_neg (by simp [he1] : ¬((ReadString b).2).err = true)]
        by_cases hend : ((ReadString b).2).data.length ≤ ((ReadString b).2).offset
        · rw [dif_pos hend, dif_pos hend]
        rw [dif_neg hend, dif_neg hend]
        split
        · next heq2 =>
          rw [ReadStringC_eq] at heq2
          exact absurd heq2 (by simp)
        · next p2 heq2 =>
          have hp2 : p2 = ReadString ((ReadString b).2) := by
            rw [ReadStringC_eq] at heq2
            exact (Option.some.inj heq2).symm
          subst hp2
          by_cases he2 : ((ReadString ((ReadString b).2)).2).err = true
          · rw [dif_pos he2, dif_pos he2]
          rw [dif_neg he2, dif_neg he2]
          exact ih _ (by
            have := loop_measure h1 (by simpa using he1) hend he2
            omega)

theorem paramLoopC_eq (b : Message) : paramLoopC b = some (paramLoop b) :=
  paramLoopC_eq_aux (b.data.length - b.offset + 1) b (Nat.lt_succ_self _)

/-- The payload classifier with every buffer access checked. -/
def classifyC (payloadLen : Nat) (data : List Nat) : Option Bool :=
  match ReadUint32C (newMessageFromBytes data) with
  | none => none
  | some p =>
    if p.2.err then some false
    else if p.1 = sslRequestCode ∧ payloadLen = 4 then some true
    else if p.1 / 65536 < 3 then some false
    else if payloadLen < minStartupPayloadLength then some false
    else paramLoopC p.2

/-- `MatchPostgres.Match` with every buffer access checked. -/
def MatchC (s : Stream) : Option (Bool × Option MatchError) :=
  match readFull s initMessageSizeLength with
  | .ioErr => some (false, some .header)
  | .eof => some (false, none)
  | .ok head s1 =>
    if head.length < initMessageSizeLength then some (false, none)
    else
      match beUint32C head with
      | none => none
      | some messageLen =>
        if messageLen < minMessageLength then some (false, none)
        else if maxStartupPayloadSize < messageLen - initMessageSizeLength then
          some (false, none)
        else if messageLen - initMessageSizeLength = 0 then some (false, none)
        else
          match readFull s1 (messageLen - initMessageSizeLength) with
          | .ioErr => some (false, some .payload)
          | .eof => some (false, none)
          | .ok data _ =>
            if data.length < messageLen - initMessageSizeLength then
              some (false, none)
            else
              (classifyC (messageLen - initMessageSizeLength) data).map
                fun r => (r, none)

theorem classifyC_eq (payloadLen : Nat) (data : List Nat) :
    classifyC payloadLen data = some (classify payloadLen data) := by
  rw [classifyC, classify, ReadUint32C_eq]
  simp only []
  by_cases h1 : ((ReadUint32 (newMessageFromBytes data)).2).err = true
  · rw [if_pos h1, if_pos h1]
  rw [if_neg h1, if_neg h1]
  by_cases h2 : (ReadUint32 (newMessageFromBytes data)).1 = sslRequestCode
      ∧ payloadLen = 4
  · rw [if_pos h2, if_pos h2]
  rw [if_neg h2, if_neg h2]
  by_cases h3 : (ReadUint32 (newMessageFromBytes data)).1 / 65536 < 3
  · rw [if_pos h3, if_pos h3]
  rw [if_neg h3, if_neg h3]
  by_cases h4 : payloadLen < minStartupPayloadLength
  · rw [if_pos h4, if_pos h4]
  rw [if_neg h4, if_neg h4, paramLoopC_eq]

/-- C9: for every input stream — any byte content, any truncation point,
with or without a trailing transport error — the checked run of `Match`
(in which any buffer access Go would panic on yields `none`) never panics
and computes exactly what `Match` computes: every buffer access performed
by the frame reader, the cursor primitives and the parameter-list walk is
within bounds. -/
theorem match_memory_safe (s : Stream) : MatchC s = some (Match s) := by
  rw [MatchC, Match]
  cases hra : readFull s initMessageSizeLength with
  | ioErr => rfl
  | eof => rfl
  | ok head s1 =>
    simp only []
    by_cases hl : head.length < initMessageSizeLength
    · rw [if_pos hl, if_pos hl]
    rw [if_neg hl, if_neg hl, beUint32C, if_pos (by simp [initMessageSizeLength] at hl; omega)]
    simp only []
    by_cases hm : beUint32 head < minMessageLength
    · rw [if_pos hm, if_pos hm]
    rw [if_neg hm, if_neg hm]
    by_cases hbig : maxStartupPayloadSize < beUint32 head - initMessageSizeLength
    · rw [if_pos hbig, if_pos hbig]
    rw [if_neg hbig, if_neg hbig]
    by_cases h0 : beUint32 head - initMessageSizeLength = 0
    · rw [if_pos h0, if_pos h0]
    rw [if_neg h0, if_neg h0]
    cases hrb : readFull s1 (beUint32 head - initMessageSizeLength) with
    | ioErr => rfl
    | eof => rfl
    | ok data s2 =>
      simp only []
      by_cases hdl : data.length < beUint32 head - initMessageSizeLength
      · rw [if_pos hdl, if_pos hdl]
      rw [if_neg hdl, if_neg hdl, classifyC_eq]
      rfl

end L4Postgres
